import Mathlib

set_option maxHeartbeats 1000000

/-!
Verification of the rarb MCP agent (index.js and the database module).

JavaScript values flowing through the program are modelled by the `Json`
inductive below (JSON values; the absent value `undefined` is modelled as
`Option.none` at the places where the source can see it).  Each definition
mirrors one function or expression of the source; comments cite the
JavaScript construct being embedded.
-/

/-- A JSON value, as delivered by JSON parsing of MCP messages.  JavaScript
object keys are unique and iterate in insertion order, so an object is an
association list. -/
inductive Json where
  | null : Json
  | bool (b : Bool) : Json
  | num (n : Int) : Json
  | str (s : String) : Json
  | arr (elems : List Json) : Json
  | obj (fields : List (String × Json)) : Json

/-- Size measure used for termination of the schema translator. -/
def Json.size : Json → Nat
  | .null => 1
  | .bool _ => 1
  | .num _ => 1
  | .str _ => 1
  | .arr xs => 1 + ((xs.attach.map fun x => Json.size x.1).sum)
  | .obj fs => 1 + ((fs.attach.map fun p => Json.size p.1.2).sum)
decreasing_by
  · have h := List.sizeOf_lt_of_mem x.2
    simp only [Json.arr.sizeOf_spec]
    omega
  · have h := List.sizeOf_lt_of_mem p.2
    have h2 : sizeOf p.1.2 < sizeOf p.1 := by
      obtain ⟨⟨k, v⟩, hm⟩ := p
      simp only [Prod.mk.sizeOf_spec]
      omega
    simp only [Json.obj.sizeOf_spec]
    omega

/-- JavaScript truthiness of a JSON value: null, false, 0 and the empty
string are falsy; every object and array is truthy. -/
def truthy : Json → Bool
  | .null => false
  | .bool b => b
  | .num n => n != 0
  | .str s => s != ""
  | .arr _ => true
  | .obj _ => true

/-- Truthiness of a possibly-absent value (undefined is falsy). -/
def truthyO : Option Json → Bool
  | none => false
  | some j => truthy j

/-- JavaScript property access `j[k]`: defined (up to `undefined`) on
objects; named properties of arrays and scalars used by the source
(oneOf, anyOf, type, properties, required, enum, items, default) are all
`undefined`, so `none` models them. -/
def Json.get : Json → String → Option Json
  | .obj fs, k => (fs.find? fun p => p.1 == k).map Prod.snd
  | _, _ => none

theorem sizeMemArr {x : Json} {xs : List Json} (h : x ∈ xs) :
    Json.size x < Json.size (.arr xs) := by
  simp only [Json.size]
  have : Json.size x ≤ (xs.attach.map fun p => Json.size p.1).sum := by
    have hx : Json.size x = (fun p : {a // a ∈ xs} => Json.size p.1) ⟨x, h⟩ := rfl
    rw [hx]
    exact List.single_le_sum (by intro y _; positivity) _ (List.mem_map_of_mem _ (by simp))
  omega

theorem sizeMemObj {k : String} {v : Json} {fs : List (String × Json)}
    (h : (k, v) ∈ fs) : Json.size v < Json.size (.obj fs) := by
  simp only [Json.size]
  have : Json.size v ≤ (fs.attach.map fun p => Json.size p.1.2).sum := by
    have hx : Json.size v = (fun p : {a // a ∈ fs} => Json.size p.1.2) ⟨(k, v), h⟩ := rfl
    rw [hx]
    exact List.single_le_sum (by intro y _; positivity) _ (List.mem_map_of_mem _ (by simp))
  omega

theorem sizeGet {j v : Json} {k : String} (h : j.get k = some v) :
    Json.size v < Json.size j := by
  cases j with
  | obj fs =>
      simp only [Json.get, Option.map_eq_some'] at h
      obtain ⟨p, hp, rfl⟩ := h
      have hm := List.mem_of_find?_eq_some hp
      exact sizeMemObj (k := p.1) (by simpa using hm)
  | null => simp [Json.get] at h
  | bool b => simp [Json.get] at h
  | num n => simp [Json.get] at h
  | str s => simp [Json.get] at h
  | arr xs => simp [Json.get] at h

theorem sizePos (j : Json) : 1 ≤ Json.size j := by
  cases j <;> simp [Json.size]

theorem sizeGetLower {j : Json} {k : String} {v : Json} (h : j.get k = some v) :
    2 ≤ Json.size j := by
  have h1 := sizeGet h
  have h2 := sizePos v
  omega

/-- `typeof v === 'object'` for a defined value: objects and arrays, and
also null (a JavaScript quirk); never true of strings, numbers, booleans. -/
def jsTypeofObject : Json → Bool
  | .obj _ => true
  | .arr _ => true
  | .null => true
  | _ => false

/-- The source check `schema.type === t` (strict equality against a string
literal): true exactly when the type field is that string. -/
def typeIs (schema : Json) (t : String) : Bool :=
  match schema.get "type" with
  | some (.str s) => s == t
  | _ => false

/-- `schema.oneOf || schema.anyOf` (line 42-43 of index.js): the first
truthy of the two fields, undefined when both are falsy or absent. -/
def unionVariants (schema : Json) : Option Json :=
  if truthyO (schema.get "oneOf") then schema.get "oneOf"
  else if truthyO (schema.get "anyOf") then schema.get "anyOf"
  else none

/-- `new Set(schema.required || [])` (line 55), kept as the list of the
string elements of the iterable: the set is consulted only through
`requiredFields.has(key)` where `key` is a property name (a string), and
only string elements can be strictly equal to a string key.  A falsy
required field gives the empty set; an array contributes its elements; a
truthy string is iterated character by character by the Set constructor;
a truthy number, boolean or plain object is not iterable, so the Set
constructor throws a TypeError (modelled as `.error`). -/
def requiredNames : Option Json → Except Unit (List String)
  | none => .ok []
  | some j =>
    if truthy j then
      match j with
      | .arr xs => .ok (xs.filterMap fun x => match x with | .str s => some s | _ => none)
      | .str s => .ok (s.toList.map fun c => String.mk [c])
      | _ => .error ()
    else .ok []

/-- `Object.entries(v)` as applied to the properties value (line 59):
entries of an object are its key/value pairs in insertion order; entries
of an array are index/element pairs; entries of a string are
index/character pairs; entries of a number or boolean are empty.  (A null
properties value is falsy and never reaches this point.) -/
def jsEntries : Json → List (String × Json)
  | .obj fs => fs
  | .arr xs => xs.enum.map fun p => (toString p.1, p.2)
  | .str s => s.toList.enum.map fun p => (toString p.1, Json.str (String.mk [p.2]))
  | _ => []

/-- The access `value.default` (line 68): ordinary property access on an
object, undefined on scalars, arrays and strings, and a TypeError on null.
The source compares with `!== undefined`, so a declared `default: null`
still counts as a present default. -/
def jsGetDefault : Json → Except Unit (Option Json)
  | .null => .error ()
  | .obj fs => .ok ((Json.obj fs).get "default")
  | _ => .ok none

theorem sizeEntries {k : String} {v p : Json} (h : (k, v) ∈ jsEntries p) :
    Json.size v ≤ Json.size p := by
  cases p with
  | obj fs => exact Nat.le_of_lt (sizeMemObj h)
  | arr xs =>
      simp only [jsEntries, List.mem_map] at h
      obtain ⟨⟨i, x⟩, hx, heq⟩ := h
      obtain ⟨-, rfl⟩ := Prod.mk.injEq .. ▸ heq
      exact Nat.le_of_lt (sizeMemArr (List.getElem?_mem
        (List.mk_mem_enum_iff_getElem?.mp hx)))
  | str s =>
      simp only [jsEntries, List.mem_map] at h
      obtain ⟨⟨i, x⟩, hx, heq⟩ := h
      obtain ⟨-, rfl⟩ := Prod.mk.injEq .. ▸ heq
      simp [Json.size]
  | null => simp [jsEntries] at h
  | bool b => simp [jsEntries] at h
  | num n => simp [jsEntries] at h

theorem truthyOSome {o : Option Json} (h : truthyO o = true) :
    ∃ j, o = some j ∧ truthy j = true := by
  cases o with
  | none => simp [truthyO] at h
  | some j => exact ⟨j, rfl, h⟩

theorem sizeUnionVariants {schema u : Json} (h : unionVariants schema = some u) :
    Json.size u < Json.size schema := by
  unfold unionVariants at h
  split at h
  · exact sizeGet h
  · split at h
    · exact sizeGet h
    · simp at h

theorem typeIsSome {j : Json} {t : String} (h : typeIs j t = true) :
    j.get "type" = some (.str t) := by
  unfold typeIs at h
  split at h
  · next s heq =>
      rw [heq]
      simp only [beq_iff_eq] at h
      rw [h]
  · simp at h

/-- The zod value produced by the translator.  An `object` field carries
its name, the translated base schema, the optional flag (whether
`.optional()` was applied at line 64) and the declared default (whether
`.default(d)` was applied at line 69, wrapping the rest). -/
inductive Zod where
  | any : Zod
  | union (variants : List Zod) : Zod
  | object (shape : List (String × Zod × Bool × Option Json)) : Zod
  | record : Zod
  | str : Zod
  | strEnum (values : Json) : Zod
  | num : Zod
  | bool : Zod
  | array (elem : Zod) : Zod
  | null : Zod

/-- Size of a possibly-undefined argument, for termination. -/
def osize : Option Json → Nat
  | none => 0
  | some j => j.size

/-- `jsonSchemaToZod(schema)` (index.js lines 36-115), a JavaScript value
(`none` models undefined) to either a thrown TypeError (`.error ()`) or
the constructed zod schema.  zod version 3 constructors perform no
argument validation, so only the JavaScript-level operations can throw:
`variants.map` on a truthy non-array/non-singleton value, the `Set`
constructor on a truthy non-iterable required field, and the
`value.default` access on a null property schema. -/
def jsonSchemaToZod : Option Json → Except Unit Zod
  -- line 37: `!schema` — undefined is falsy, so z.any()
  | none => .ok .any
  | some schema =>
    -- line 37: `!schema || typeof schema !== 'object'` returns z.any() for
    -- every falsy value and every non-object primitive (typeof null is
    -- 'object', but null is falsy and is caught by the first disjunct)
    if !(truthy schema && jsTypeofObject schema) then .ok .any
    else
      match hU : unionVariants schema with
      | some u =>
        match hV : u with
        -- line 44: `variants.length === 0` returns z.any()
        | .arr [] => .ok .any
        -- line 45: a single variant is translated directly, unwrapped
        | .arr [v] => jsonSchemaToZod (some v)
        -- lines 48-49: translate each variant in order, then z.union;
        -- a throw inside `.map` propagates from the first failing variant
        | .arr vs => (vs.attach.mapM fun v => jsonSchemaToZod (some v.1)).map Zod.union
        -- a truthy string as the variants value: `.length` is the string
        -- length; a one-character string s has s[0] === s, a string, which
        -- translates to z.any() (inlined here); any longer string has no
        -- `.map` method and the call throws
        | .str s => if s.length == 1 then .ok .any else .error ()
        -- a truthy plain object as the variants value: `.length` reads its
        -- "length" property; if that is the number 0 the code returns
        -- z.any(), if it is the number 1 it translates the "0" property
        -- (possibly undefined); otherwise `.map` is not a function and the
        -- call throws
        | .obj ofs =>
          match (Json.obj ofs).get "length" with
          | some (.num n) =>
            if n == 0 then .ok .any
            else if n == 1 then jsonSchemaToZod ((Json.obj ofs).get "0")
            else .error ()
          | _ => .error ()
        -- a number or boolean as the variants value has no `.length`, so
        -- neither strict comparison matches, and `.map` throws; null and
        -- false are falsy and never selected as variants
        | _ => .error ()
      | none =>
        -- line 53: `schema.type === 'object' || schema.properties`
        if typeIs schema "object" || truthyO (schema.get "properties") then
          -- line 55: the required set is built before the properties loop
          match requiredNames (schema.get "required") with
          | .error e => .error e
          | .ok req =>
            -- lines 58-74: translate every property in order; each
            -- iteration translates the value, applies `.optional()` when
            -- the key is not required, and reads `value.default`
            ((match hP : schema.get "properties" with
              | some p =>
                if truthy p then
                  (jsEntries p).attach.mapM fun e =>
                    (jsonSchemaToZod (some e.1.2)).bind fun base =>
                      (jsGetDefault e.1.2).map fun dflt =>
                        (e.1.1, base, !(req.contains e.1.1), dflt)
                else .ok []
              | none => .ok []) :
                Except Unit (List (String × Zod × Bool × Option Json))).map
              fun shape =>
              -- lines 77-81: an empty shape yields z.record(z.any()),
              -- otherwise z.object(shape)
              if shape.isEmpty then Zod.record else Zod.object shape
        -- lines 84-90: z.string(), replaced by z.enum(schema.enum) when a
        -- truthy enum is declared; the zod 3 enum constructor stores its
        -- argument without validating it, so this never throws
        else if typeIs schema "string" then
          match schema.get "enum" with
          | some e => if truthy e then .ok (.strEnum e) else .ok .str
          | none => .ok .str
        -- lines 92-98
        else if typeIs schema "number" || typeIs schema "integer" then .ok .num
        else if typeIs schema "boolean" then .ok .bool
        -- lines 100-102: z.array(jsonSchemaToZod(schema.items || {})); a
        -- falsy or absent items field is replaced by the empty object
        else if hA : typeIs schema "array" then
          (jsonSchemaToZod (if truthyO (schema.get "items")
              then schema.get "items" else some (.obj []))).map .array
        -- lines 105-107
        else if typeIs schema "null" then .ok .null
        -- lines 110-112 (re-translating when properties is present without
        -- a type tag) are unreachable: the object branch above already
        -- fires whenever properties is truthy, so they are omitted here
        -- line 114
        else .ok .any
termination_by o => osize o
decreasing_by
  · -- single union variant
    have h1 := sizeUnionVariants hU
    have h2 : Json.size v < Json.size (.arr [v]) := sizeMemArr (by simp)
    simp only [osize]
    omega
  · -- one of several union variants
    have h1 := sizeUnionVariants hU
    have h2 : Json.size v.1 < Json.size (.arr vs) := sizeMemArr v.2
    simp only [osize]
    omega
  · -- the "0" property of an object-shaped variants value
    have h1 := sizeUnionVariants hU
    cases hg : (Json.obj ofs).get "0" with
    | none =>
        simp only [osize]
        omega
    | some w =>
        have h2 := sizeGet hg
        simp only [osize]
        omega
  · -- a property value inside the properties loop
    have hm : ((e.1.1, e.1.2) : String × Json) ∈ jsEntries p := by
      simpa using e.2
    have h1 := sizeEntries hm
    have h2 := sizeGet hP
    simp only [osize]
    omega
  · -- the items schema (or the empty object standing in for it)
    split
    · next hI =>
        obtain ⟨i, hi, -⟩ := truthyOSome hI
        rw [hi]
        simp only [osize]
        exact sizeGet hi
    · have h1 := sizeGetLower (typeIsSome hA)
      have h2 : Json.size (.obj []) = 1 := by simp [Json.size]
      simp only [osize]
      omega


/-- Pointwise form of mapping a monadic function over an attached list,
used to relate the translator body to its plain restatement. -/
theorem mapM_attach_cong {α β : Type} {xs : List α} (f : {x // x ∈ xs} → Except Unit β)
    (g : α → Except Unit β) (h : ∀ e, f e = g e.1) : xs.attach.mapM f = xs.mapM g := by
  have haux : ∀ l : List {x // x ∈ xs}, l.mapM f = (l.map Subtype.val).mapM g := by
    intro l
    induction l with
    | nil => rfl
    | cons a t ih => simp only [List.mapM_cons, List.map_cons, ih, h a]
  rw [haux, List.attach_map_subtype_val]

/-- The defining equations of the translator, restated without the
dependent matches that the termination proof needs, so that the function
can be evaluated and reasoned about by rewriting. -/
theorem jsonSchemaToZodUnfold (o : Option Json) : jsonSchemaToZod o =
  match o with
  | none => .ok .any
  | some schema =>
    if !(truthy schema && jsTypeofObject schema) then .ok .any
    else
      match unionVariants schema with
      | some (.arr []) => .ok .any
      | some (.arr [v]) => jsonSchemaToZod (some v)
      | some (.arr vs) => (vs.mapM fun v => jsonSchemaToZod (some v)).map Zod.union
      | some (.str s) => if s.length == 1 then .ok .any else .error ()
      | some (.obj ofs) =>
        (match (Json.obj ofs).get "length" with
          | some (.num n) =>
            if n == 0 then .ok .any
            else if n == 1 then jsonSchemaToZod ((Json.obj ofs).get "0")
            else .error ()
          | _ => .error ())
      | some _ => .error ()
      | none =>
        if typeIs schema "object" || truthyO (schema.get "properties") then
          match requiredNames (schema.get "required") with
          | .error e => .error e
          | .ok req =>
            ((match schema.get "properties" with
              | some p =>
                if truthy p then
                  (jsEntries p).mapM fun e =>
                    (jsonSchemaToZod (some e.2)).bind fun base =>
                      (jsGetDefault e.2).map fun dflt =>
                        (e.1, base, !(req.contains e.1), dflt)
                else .ok []
              | none => .ok []) :
                Except Unit (List (String × Zod × Bool × Option Json))).map
              fun shape => if shape.isEmpty then Zod.record else Zod.object shape
        else if typeIs schema "string" then
          match schema.get "enum" with
          | some e => if truthy e then .ok (.strEnum e) else .ok .str
          | none => .ok .str
        else if typeIs schema "number" || typeIs schema "integer" then .ok .num
        else if typeIs schema "boolean" then .ok .bool
        else if typeIs schema "array" then
          (jsonSchemaToZod (if truthyO (schema.get "items")
              then schema.get "items" else some (.obj []))).map .array
        else if typeIs schema "null" then .ok .null
        else .ok .any := by
  cases o with
  | none => rw [jsonSchemaToZod.eq_def]
  | some schema =>
    rw [jsonSchemaToZod.eq_def]
    cases hG : (truthy schema && jsTypeofObject schema) with
    | false => simp only [hG, Bool.not_false, if_true]
    | true =>
      simp only [hG, Bool.not_true, Bool.false_eq_true, if_false]
      split
      · rename_i u hU
        cases u with
        | arr vs =>
          conv_rhs => rw [hU]
          rcases vs with _ | ⟨v1, _ | ⟨v2, rest⟩⟩
          · rfl
          · rfl
          · exact congrArg (Except.map Zod.union) (mapM_attach_cong _ _ fun e => rfl)
        | str s => conv_rhs => rw [hU]
        | obj ofs => conv_rhs => rw [hU]
        | null => conv_rhs => rw [hU]
        | bool b => conv_rhs => rw [hU]
        | num n => conv_rhs => rw [hU]
      · rename_i hU
        rw [hU]
        simp only [dite_eq_ite]
        by_cases hO : (typeIs schema "object" || truthyO (schema.get "properties")) = true
        · rw [if_pos hO, if_pos hO]
          split
          · rfl
          · rename_i req hR
            split
            · rename_i p hP
              simp only [hP]
              by_cases hT : truthy p = true
              · rw [if_pos hT, if_pos hT]
                exact congrArg _ (mapM_attach_cong _ _ fun e => rfl)
              · rw [if_neg hT, if_neg hT]
            · rename_i hP
              simp only [hP]
        · rw [if_neg hO, if_neg hO]

/-- Entries of a plain object value. -/
theorem jsEntriesObj (fs : List (String × Json)) : jsEntries (.obj fs) = fs := rfl

theorem typeIsGetNone {j : Json} {t : String} (h : j.get "type" = none) :
    typeIs j t = false := by
  unfold typeIs
  rw [h]

theorem exceptBindOk {α β : Type} {x : Except Unit α} {f : α → Except Unit β}
    {b : β} (h : x >>= f = .ok b) : ∃ a, x = .ok a ∧ f a = .ok b := by
  cases x with
  | error e => exact absurd h (by simp [Bind.bind, Except.bind])
  | ok a => exact ⟨a, rfl, by simpa [Bind.bind, Except.bind] using h⟩

theorem exceptMapOk {α β : Type} {x : Except Unit α} {f : α → β} {b : β}
    (h : Except.map f x = .ok b) : ∃ a, x = .ok a ∧ f a = b := by
  cases x with
  | error e => exact absurd h (by simp [Except.map])
  | ok a => exact ⟨a, rfl, by simpa [Except.map] using h⟩

/-- Helper for the object branch: the translated shape produced by the
properties loop keeps the declared names in order and marks a field
optional exactly when its name is missing from the required list. -/
theorem mapMShape (req : List String) :
    ∀ (pfs : List (String × Json)) (lst : List (String × Zod × Bool × Option Json)),
    pfs.mapM (fun e =>
      (jsonSchemaToZod (some e.2)).bind fun base =>
        (jsGetDefault e.2).map fun dflt =>
          (e.1, base, !(req.contains e.1), dflt)) = .ok lst →
    lst.map (fun e => e.1) = pfs.map (fun e => e.1) ∧
    ∀ e ∈ lst, e.2.2.1 = !(req.contains e.1) := by
  intro pfs
  induction pfs with
  | nil =>
      intro lst h
      simp only [List.mapM_nil, pure, Except.pure, Except.ok.injEq] at h
      subst h
      simp
  | cons p ps ih =>
      intro lst h
      rw [List.mapM_cons] at h
      obtain ⟨x, hx, h⟩ := exceptBindOk h
      obtain ⟨xs, hxs, h⟩ := exceptBindOk h
      simp only [pure, Except.pure, Except.ok.injEq] at h
      subst h
      obtain ⟨base, hbase, hx⟩ := exceptBindOk hx
      obtain ⟨dflt, hdflt, hx⟩ := exceptMapOk hx
      subst hx
      obtain ⟨ih1, ih2⟩ := ih xs hxs
      constructor
      · simp [ih1]
      · intro e he
        rcases List.mem_cons.mp he with rfl | hmem
        · rfl
        · exact ih2 e hmem

/-- Claim C1: an undefined input, a non-object input, and an object whose
shape matches none of the recognized kinds (no truthy oneOf/anyOf, no
recognized type tag, no truthy properties) all translate, without any
exception, to the unconstrained signature z.any(); and a string node
carrying an enum of any content also translates without any exception. -/
theorem claim_C1 :
    (jsonSchemaToZod none = .ok .any) ∧
    (∀ j : Json, truthy j = false ∨ jsTypeofObject j = false →
      jsonSchemaToZod (some j) = .ok .any) ∧
    (∀ j : Json, unionVariants j = none → typeIs j "object" = false →
      typeIs j "string" = false → typeIs j "number" = false →
      typeIs j "integer" = false → typeIs j "boolean" = false →
      typeIs j "array" = false → typeIs j "null" = false →
      truthyO (j.get "properties") = false →
      jsonSchemaToZod (some j) = .ok .any) ∧
    (∀ j : Json, unionVariants j = none → truthyO (j.get "properties") = false →
      typeIs j "string" = true →
      ∃ z, jsonSchemaToZod (some j) = .ok z) := by
  refine ⟨by rw [jsonSchemaToZodUnfold], ?_, ?_, ?_⟩
  · intro j hj
    rw [jsonSchemaToZodUnfold]
    rcases hj with hj | hj <;> simp [hj]
  · intro j hU hObj hStr hNum hInt hBool hArr hNull hProps
    rw [jsonSchemaToZodUnfold]
    cases hG : (truthy j && jsTypeofObject j) with
    | false => simp [hG]
    | true =>
        simp only [hG, Bool.not_true, Bool.false_eq_true, if_false]
        rw [hU]
        simp [hObj, hStr, hNum, hInt, hBool, hArr, hNull, hProps]
  · intro j hU hProps hStr
    have hGet := typeIsSome hStr
    have hObjShape : ∃ fs, j = Json.obj fs := by
      cases j with
      | obj fs => exact ⟨fs, rfl⟩
      | null => simp [Json.get] at hGet
      | bool b => simp [Json.get] at hGet
      | num n => simp [Json.get] at hGet
      | str s => simp [Json.get] at hGet
      | arr xs => simp [Json.get] at hGet
    obtain ⟨fs, rfl⟩ := hObjShape
    have hObj : typeIs (Json.obj fs) "object" = false := by
      unfold typeIs
      rw [hGet]
      rfl
    rw [jsonSchemaToZodUnfold]
    simp only [truthy, jsTypeofObject, Bool.and_self, Bool.not_true,
      Bool.false_eq_true, if_false]
    rw [hU]
    simp only [hObj, hProps, Bool.or_self, Bool.false_eq_true, if_false,
      hStr, if_true]
    cases hE : (Json.obj fs).get "enum" with
    | none => exact ⟨.str, rfl⟩
    | some e =>
        cases hT : truthy e with
        | true =>
            refine ⟨.strEnum e, ?_⟩
            simp only [truthy] at hT
            simp [hT]
        | false =>
            refine ⟨.str, ?_⟩
            simp only [truthy] at hT
            simp [hT]

/-- Witness for claim C1 at concrete inputs: the number 5, an object with
only an unrecognized tag, and a string schema with a heterogeneous enum. -/
theorem claim_C1_witness :
    jsonSchemaToZod (some (.num 5)) = .ok .any ∧
    jsonSchemaToZod (some (.obj [("foo", .str "bar")])) = .ok .any ∧
    ∃ z, jsonSchemaToZod (some (.obj [("type", .str "string"),
      ("enum", .arr [.num 1, .null])])) = .ok z :=
  ⟨claim_C1.2.1 _ (Or.inr rfl),
   claim_C1.2.2.1 _ rfl rfl rfl rfl rfl rfl rfl rfl rfl,
   claim_C1.2.2.2 _ rfl rfl rfl⟩

/-- Claim C2: for an object schema with declared properties, the produced
object signature declares exactly the declared property names, in order,
and a field is non-optional exactly when its name is in the required set;
every declared name therefore falls in exactly one of the two
categories. -/
theorem claim_C2 (fs pfs : List (String × Json)) (req : List String)
    (shape : List (String × Zod × Bool × Option Json))
    (hU : unionVariants (Json.obj fs) = none)
    (hP : (Json.obj fs).get "properties" = some (.obj pfs))
    (hR : requiredNames ((Json.obj fs).get "required") = .ok req)
    (hT : jsonSchemaToZod (some (Json.obj fs)) = .ok (.object shape)) :
    shape.map (fun e => e.1) = pfs.map (fun e => e.1) ∧
    ∀ e ∈ shape, (e.2.2.1 = false ↔ e.1 ∈ req) ∧
      ((e.1 ∈ req ∧ e.2.2.1 = false) ∨ (e.1 ∉ req ∧ e.2.2.1 = true)) := by
  rw [jsonSchemaToZodUnfold] at hT
  simp only [truthy, jsTypeofObject, Bool.and_self, Bool.not_true,
    Bool.false_eq_true, if_false] at hT
  rw [hU] at hT
  rw [hP] at hT
  simp only [truthyO, truthy, Bool.or_true, if_true] at hT
  rw [hR] at hT
  simp only [jsEntriesObj, truthy, if_true] at hT
  cases hM : pfs.mapM (fun e =>
      (jsonSchemaToZod (some e.2)).bind fun base =>
        (jsGetDefault e.2).map fun dflt =>
          (e.1, base, !(req.contains e.1), dflt)) with
  | error e => rw [hM] at hT; simp [Except.map] at hT
  | ok lst =>
      rw [hM] at hT
      simp only [Except.map, Except.ok.injEq] at hT
      have hshape : lst = shape := by
        by_cases hE : lst.isEmpty
        · rw [if_pos hE] at hT; cases hT
        · rw [if_neg hE] at hT
          cases hT
          rfl
      subst hshape
      obtain ⟨h1, h2⟩ := mapMShape req pfs lst hM
      refine ⟨h1, fun e he => ?_⟩
      have hopt := h2 e he
      have hmem : (req.contains e.1 = true) ↔ e.1 ∈ req := by
        constructor
        · exact fun hc => List.mem_of_elem_eq_true hc
        · exact fun hm => List.elem_eq_true_of_mem hm
      constructor
      · constructor
        · intro hfalse
          rw [hfalse] at hopt
          have : req.contains e.1 = true := by
            cases hc : req.contains e.1 with
            | true => rfl
            | false => rw [hc] at hopt; simp at hopt
          exact hmem.mp this
        · intro hm
          rw [← hmem] at hm
          rw [hm] at hopt
          simpa using hopt
      · by_cases hm : e.1 ∈ req
        · left
          refine ⟨hm, ?_⟩
          rw [← hmem] at hm
          rw [hm] at hopt
          simpa using hopt
        · right
          refine ⟨hm, ?_⟩
          have : req.contains e.1 = false := by
            cases hc : req.contains e.1 with
            | true => exact absurd (hmem.mp hc) hm
            | false => rfl
          rw [this] at hopt
          simpa using hopt

/-- Witness for claim C2: the schema with properties q (string, required)
and r (number, not required). -/
theorem claim_C2_witness :
    (([("q", Zod.str, false, none), ("r", Zod.num, true, none)] :
        List (String × Zod × Bool × Option Json)).map (fun e => e.1) =
      [("q", Json.obj [("type", Json.str "string")]),
       ("r", Json.obj [("type", Json.str "number")])].map (fun e => e.1)) ∧
    ∀ e ∈ ([("q", Zod.str, false, none), ("r", Zod.num, true, none)] :
        List (String × Zod × Bool × Option Json)),
      (e.2.2.1 = false ↔ e.1 ∈ ["q"]) ∧
      ((e.1 ∈ ["q"] ∧ e.2.2.1 = false) ∨ (e.1 ∉ ["q"] ∧ e.2.2.1 = true)) :=
  claim_C2
    [("type", .str "object"),
     ("properties", .obj [("q", .obj [("type", .str "string")]),
                          ("r", .obj [("type", .str "number")])]),
     ("required", .arr [.str "q"])]
    [("q", .obj [("type", .str "string")]), ("r", .obj [("type", .str "number")])]
    ["q"]
    [("q", .str, false, none), ("r", .num, true, none)]
    rfl rfl rfl
    (by
      rw [jsonSchemaToZodUnfold]
      simp [truthy, jsTypeofObject, unionVariants, truthyO, Json.get, typeIs,
        requiredNames, jsEntriesObj]
      simp only [List.mapM.loop]
      rw [jsonSchemaToZodUnfold]
      simp [truthy, jsTypeofObject, unionVariants, truthyO, Json.get, typeIs,
        requiredNames]
      rw [jsonSchemaToZodUnfold]
      simp [truthy, jsTypeofObject, unionVariants, truthyO, Json.get, typeIs,
        requiredNames, jsGetDefault]
      rfl)

/-- Claim C5: a union schema whose oneOf (or anyOf) holds exactly one
alternative translates to exactly the translation of that alternative,
with no union wrapper. -/
theorem claim_C5 (fs : List (String × Json)) (v : Json)
    (hU : unionVariants (Json.obj fs) = some (.arr [v])) :
    jsonSchemaToZod (some (Json.obj fs)) = jsonSchemaToZod (some v) := by
  conv_lhs => rw [jsonSchemaToZodUnfold]
  simp only [truthy, jsTypeofObject, Bool.and_self, Bool.not_true,
    Bool.false_eq_true, if_false]
  rw [hU]

/-- Witness for claim C5: a oneOf with a single boolean alternative. -/
theorem claim_C5_witness :
    jsonSchemaToZod (some (.obj [("oneOf",
        .arr [.obj [("type", .str "boolean")]])])) =
      jsonSchemaToZod (some (.obj [("type", .str "boolean")])) :=
  claim_C5 [("oneOf", .arr [.obj [("type", .str "boolean")]])]
    (.obj [("type", .str "boolean")]) rfl

/-- One unit of a tool result content array, with the fields the source
reads and mutates (item.type, item.text, item.data, item.mimeType,
item.annotations, lines 157-209); an absent field is `none`. -/
structure ContentItem where
  type : Json
  text : Option Json
  data : Option Json
  mimeType : Option Json
  annotations : Option Json

/-- The check `item.type === 'image'` (line 158): strict equality against
the string literal. -/
def isImageType : Json → Bool
  | .str s => s == "image"
  | _ => false

/-- The per-item body of the screenshot loop (index.js lines 157-211).
An item is rewritten only when `item.type === 'image' && item.data` holds.
The normalization itself (lines 159-202) converts the payload and issues
an auxiliary model invocation; the remote model is not part of this
repository, so its outcome is the parameter `summarize`: `some s` is a
successful description and `none` any failure inside the try block.  On
success the item becomes a text item carrying the summary behind the fixed
marker and loses its data, mimeType and annotations fields (lines
196-200); on failure the catch block (lines 203-209) turns it into a text
item carrying the fixed fallback text and deletes only its data field. -/
def processItem (summarize : Json → Option String) (item : ContentItem) :
    ContentItem :=
  if isImageType item.type && truthyO item.data then
    match summarize (item.data.getD .null) with
    | some s =>
        { type := .str "text",
          text := some (.str ("[Screenshot summary] " ++ s)),
          data := none, mimeType := none, annotations := none }
    | none =>
        { item with
          type := .str "text",
          text := some (.str "[Screenshot taken but could not be summarized]"),
          data := none }
  else item

/-- The screenshot post-processing in execute (lines 156-214): applied
only when the tool is browser_screenshot and the returned content array is
nonempty; every item of the array is processed in order, in place, and the
content is then returned; every other tool returns its content
unchanged. -/
def processContent (summarize : Json → Option String) (toolName : String)
    (content : List ContentItem) : List ContentItem :=
  if toolName == "browser_screenshot" && !content.isEmpty then
    content.map (processItem summarize)
  else content

/-- An image item whose payload is the empty string: a well-formed image
content item (type, data and mimeType all present) whose data is falsy. -/
def emptyImageItem : ContentItem :=
  ⟨.str "image", none, some (.str ""), some (.str "image/png"), none⟩

/-- Counterexample to claim C3 as stated: a screen-capture result holding
an image item with an empty payload passes through the proxy completely
unchanged, so not every image content item is replaced by a text item —
the guard `item.type === 'image' && item.data` skips an image item with a
falsy data field. -/
theorem claim_C3_counterexample :
    processContent (fun _ => some "a page") "browser_screenshot"
        [emptyImageItem] = [emptyImageItem] ∧
    emptyImageItem.type = .str "image" ∧
    emptyImageItem.type ≠ .str "text" := by
  refine ⟨rfl, rfl, fun h => ?_⟩
  have h2 : Json.str "image" = Json.str "text" := h
  injection h2 with h3
  exact absurd h3 (by decide)

/-- Claim C3 (amended): for a screen-capture result, the content is
rewritten item by item in order; every image item carrying a truthy
payload is replaced in place by a text item (carrying the fixed summary
marker when normalization succeeds), and every other item — in particular
every text item, and any image item without a payload — is left untouched
in its original position. -/
theorem claim_C3 (summarize : Json → Option String)
    (content : List ContentItem) (hne : content ≠ []) :
    processContent summarize "browser_screenshot" content =
      content.map (processItem summarize) ∧
    (∀ item : ContentItem, isImageType item.type = true →
      truthyO item.data = true →
      (processItem summarize item).type = .str "text" ∧
      ∀ s, summarize (item.data.getD .null) = some s →
        (processItem summarize item).text =
          some (.str ("[Screenshot summary] " ++ s))) ∧
    (∀ item : ContentItem,
      isImageType item.type = false ∨ truthyO item.data = false →
      processItem summarize item = item) := by
  refine ⟨?_, ?_, ?_⟩
  · unfold processContent
    have : content.isEmpty = false := by
      cases content with
      | nil => exact absurd rfl hne
      | cons a l => rfl
    simp [this]
  · intro item himg hdata
    unfold processItem
    rw [himg, hdata]
    simp only [Bool.and_self, if_true]
    cases hs : summarize (item.data.getD .null) with
    | some s => exact ⟨rfl, fun s2 hs2 => by cases hs2; rfl⟩
    | none => exact ⟨rfl, fun s2 hs2 => Option.noConfusion hs2⟩
  · intro item hskip
    unfold processItem
    rcases hskip with hskip | hskip <;> simp [hskip]

/-- Witness for claim C3: one image item with a payload and one text item,
with a normalizer that succeeds. -/
theorem claim_C3_witness :
    (processContent (fun _ => some "a page") "browser_screenshot"
        [⟨.str "image", none, some (.str "QUJD"), some (.str "image/png"), none⟩,
         ⟨.str "text", some (.str "hello"), none, none, none⟩] =
      [⟨.str "image", none, some (.str "QUJD"), some (.str "image/png"), none⟩,
       ⟨.str "text", some (.str "hello"), none, none, none⟩].map
        (processItem (fun _ => some "a page"))) ∧
    (∀ item : ContentItem, isImageType item.type = true →
      truthyO item.data = true →
      (processItem (fun _ => some "a page") item).type = .str "text" ∧
      ∀ s, (fun _ : Json => some "a page") (item.data.getD .null) = some s →
        (processItem (fun _ => some "a page") item).text =
          some (.str ("[Screenshot summary] " ++ s))) ∧
    (∀ item : ContentItem,
      isImageType item.type = false ∨ truthyO item.data = false →
      processItem (fun _ => some "a page") item = item) :=
  claim_C3 (fun _ => some "a page")
    [⟨.str "image", none, some (.str "QUJD"), some (.str "image/png"), none⟩,
     ⟨.str "text", some (.str "hello"), none, none, none⟩]
    (by simp)

/-- Counterexample to claim C6 as stated: when normalization fails, the
fallback text written by the catch block is the string
"[Screenshot taken but could not be summarized]", which is not the literal
"capture taken but could not be summarized" named by the claim. -/
theorem claim_C6_counterexample :
    (processItem (fun _ => none)
        ⟨.str "image", none, some (.str "QUJD"), some (.str "image/png"), none⟩).text =
      some (.str "[Screenshot taken but could not be summarized]") ∧
    some (Json.str "[Screenshot taken but could not be summarized]") ≠
      some (Json.str "capture taken but could not be summarized") := by
  refine ⟨rfl, ?_⟩
  intro h
  injection h with h1
  injection h1 with h2
  exact absurd h2 (by decide)

/-- Claim C6 (amended): when normalization fails on an image item of a
screen-capture result, that item alone is degraded in place to a text item
carrying the fixed fallback text
"[Screenshot taken but could not be summarized]" (keeping its mimeType and
annotations fields, losing its data field); every other item of the result
is exactly the independent per-item processing of that item, unaffected by
the failure, and the call still returns a content array (the error is
absorbed by the catch block and never propagates). -/
theorem claim_C6 (summarize : Json → Option String) (content : List ContentItem)
    (i : Nat) (h : i < content.length)
    (himg : isImageType (content.get ⟨i, h⟩).type = true)
    (hdata : truthyO (content.get ⟨i, h⟩).data = true)
    (hfail : summarize ((content.get ⟨i, h⟩).data.getD .null) = none) :
    processContent summarize "browser_screenshot" content =
      content.map (processItem summarize) ∧
    (content.map (processItem summarize)).get
        ⟨i, by rw [List.length_map]; exact h⟩ =
      { content.get ⟨i, h⟩ with
        type := .str "text",
        text := some (.str "[Screenshot taken but could not be summarized]"),
        data := none } ∧
    ∀ j (hj : j < content.length),
      (content.map (processItem summarize)).get
          ⟨j, by rw [List.length_map]; exact hj⟩ =
        processItem summarize (content.get ⟨j, hj⟩) := by
  refine ⟨?_, ?_, ?_⟩
  · unfold processContent
    have hne : content.isEmpty = false := by
      cases content with
      | nil => simp at h
      | cons a l => rfl
    simp [hne]
  · rw [List.get_map]
    unfold processItem
    rw [himg, hdata]
    simp only [Bool.and_self, if_true]
    rw [hfail]
  · intro j hj
    exact List.get_map (processItem summarize)

/-- Witness for claim C6: a text item followed by an image item whose
normalization fails. -/
theorem claim_C6_witness :
    processContent (fun _ => none) "browser_screenshot"
        [⟨.str "text", some (.str "hello"), none, none, none⟩,
         ⟨.str "image", none, some (.str "QUJD"), some (.str "image/png"), none⟩] =
      [⟨.str "text", some (.str "hello"), none, none, none⟩,
       ⟨.str "image", none, some (.str "QUJD"), some (.str "image/png"), none⟩].map
        (processItem (fun _ => none)) ∧
    ([⟨.str "text", some (.str "hello"), none, none, none⟩,
      ⟨.str "image", none, some (.str "QUJD"), some (.str "image/png"), none⟩].map
        (processItem (fun _ => none))).get ⟨1, by simp⟩ =
      { ([⟨.str "text", some (.str "hello"), none, none, none⟩,
          ⟨.str "image", none, some (.str "QUJD"), some (.str "image/png"), none⟩] :
            List ContentItem).get ⟨1, by simp⟩ with
        type := .str "text",
        text := some (.str "[Screenshot taken but could not be summarized]"),
        data := none } ∧
    ∀ j (hj : j < ([⟨.str "text", some (.str "hello"), none, none, none⟩,
        ⟨.str "image", none, some (.str "QUJD"), some (.str "image/png"), none⟩] :
          List ContentItem).length),
      (([⟨.str "text", some (.str "hello"), none, none, none⟩,
         ⟨.str "image", none, some (.str "QUJD"), some (.str "image/png"), none⟩] :
           List ContentItem).map (processItem (fun _ => none))).get
          ⟨j, by rw [List.length_map]; exact hj⟩ =
        processItem (fun _ => none)
          (([⟨.str "text", some (.str "hello"), none, none, none⟩,
             ⟨.str "image", none, some (.str "QUJD"), some (.str "image/png"), none⟩] :
               List ContentItem).get ⟨j, hj⟩) :=
  claim_C6 (fun _ => none)
    [⟨.str "text", some (.str "hello"), none, none, none⟩,
     ⟨.str "image", none, some (.str "QUJD"), some (.str "image/png"), none⟩]
    1 (by simp) rfl rfl rfl

/-- One round record of the execution loop (spec StepRecord): the index of
the round, the tool calls the model requested, their results, and any text
the model produced. -/
structure StepRecord where
  index : Nat
  toolCalls : List (String × Json)
  toolResults : List (String × List ContentItem)
  text : Option String

/-- Terminal tag of a finished loop. -/
inductive FinishReason where
  | completed : FinishReason
  | exhausted : FinishReason
  deriving DecidableEq

/-- The value a finished loop returns: the ordered step records and the
finish reason. -/
structure StepResult where
  steps : List StepRecord
  finishReason : FinishReason

/-- Modelled from the spec: the outcome of one model round inside the
model-invocation primitive (the generateText step loop of the AI SDK,
consumed by executePrompt at index.js lines 264-295, is not part of this
repository).  A round either requests further tool calls (the loop
continues) or declares completion (final text, no further tool calls). -/
inductive RoundOut where
  | step (r : StepRecord) : RoundOut
  | done (r : StepRecord) : RoundOut

/-- Modelled from the spec: the step-bounded loop of the model-invocation
primitive.  Each remaining-budget step runs one model round (which may
fail, ending the run as an error); a completing round stops the loop with
the completion reason; otherwise the record is appended and the loop
continues; a loop that consumes its whole budget returns the accumulated
records tagged with the exhaustion finish reason, as a normal result. -/
def runSteps (model : Nat → Except String RoundOut) :
    Nat → Nat → List StepRecord → Except String StepResult
  | 0, _, acc => .ok ⟨acc.reverse, .exhausted⟩
  | n + 1, i, acc =>
    match model i with
    | .error e => .error e
    | .ok (.done r) => .ok ⟨(r :: acc).reverse, .completed⟩
    | .ok (.step r) => runSteps model n (i + 1) (r :: acc)

/-- Modelled from the spec: running a prompt with a step budget starts the
loop at round zero with no accumulated records. -/
def executeLoop (model : Nat → Except String RoundOut) (maxSteps : Nat) :
    Except String StepResult :=
  runSteps model maxSteps 0 []

theorem runStepsExhaust (model : Nat → Except String RoundOut)
    (hmodel : ∀ i, ∃ r, model i = .ok (.step r)) :
    ∀ (n i : Nat) (acc : List StepRecord),
    ∃ steps, runSteps model n i acc = .ok ⟨steps, .exhausted⟩ ∧
      steps.length = acc.length + n := by
  intro n
  induction n with
  | zero => exact fun i acc => ⟨acc.reverse, rfl, by simp⟩
  | succ n ih =>
      intro i acc
      obtain ⟨r, hr⟩ := hmodel i
      obtain ⟨steps, hrun, hlen⟩ := ih (i + 1) (r :: acc)
      refine ⟨steps, ?_, ?_⟩
      · unfold runSteps
        rw [hr]
        exact hrun
      · simp at hlen
        omega

/-- Claim C4: for every step budget N, a loop whose model never declares
completion stops after exactly N rounds, returning the accumulated steps
tagged with the exhaustion finish reason as a normal result, never as an
error. -/
theorem claim_C4 (model : Nat → Except String RoundOut) (N : Nat)
    (hmodel : ∀ i, ∃ r, model i = .ok (.step r)) :
    ∃ res : StepResult, executeLoop model N = .ok res ∧
      res.steps.length = N ∧ res.finishReason = .exhausted := by
  obtain ⟨steps, hrun, hlen⟩ := runStepsExhaust model hmodel N 0 []
  exact ⟨⟨steps, .exhausted⟩, hrun, by simpa using hlen, rfl⟩

/-- Witness for claim C4 at budget 3 with a model that always requests
another tool call. -/
theorem claim_C4_witness :
    ∃ res : StepResult,
      executeLoop (fun i => .ok (.step ⟨i, [], [], none⟩)) 3 = .ok res ∧
      res.steps.length = 3 ∧ res.finishReason = .exhausted :=
  claim_C4 (fun i => .ok (.step ⟨i, [], [], none⟩)) 3
    (fun i => ⟨⟨i, [], [], none⟩, rfl⟩)

/-- Modelled from the spec: the MCP SDK client owned by the session is an
external collaborator (not in this repository); closing it tears the
connection down, and closing an already-closed client leaves it closed. -/
inductive ClientConn where
  | conn : ClientConn
  | closed : ClientConn
  deriving DecidableEq

/-- Modelled from the spec: the SDK close operation. -/
def clientClose : ClientConn → ClientConn := fun _ => .closed

/-- The session cleanup path of the source: the wrapper close (index.js
lines 221-226) forwards to the SDK client it holds (the inner guard
`mcpClient && typeof mcpClient.close === 'function'` always holds for a
constructed client), and every caller — the finally block of main (lines
381-387) and both signal handlers (lines 391-405) — invokes it only behind
`if (client)`, so when no session was ever connected (`client` still
undefined) the cleanup does nothing.  The state is `none` when no client
was ever created and `some c` when a client in state `c` is held. -/
def Session.close : Option ClientConn → Option ClientConn
  | none => none
  | some c => some (clientClose c)

/-- Claim C8: session close is idempotent and total: closing twice equals
closing once, and the cleanup path on a session that never connected is a
no-op; being a total function, it raises no error on any state. -/
theorem claim_C8 :
    (∀ s : Option ClientConn, Session.close (Session.close s) = Session.close s) ∧
    Session.close none = none := by
  constructor
  · intro s
    cases s with
    | none => rfl
    | some c => rfl
  · rfl

/-- The item given to the persistence collaborator: the destructured
fields of saveOutput (db module lines 69-70); an absent field is none. -/
structure OutputItem where
  title : Option Json
  description : Option Json
  url : Option Json
  category : Option Json

/-- `x || null` (db module line 85): a falsy parameter is stored as SQL
null. -/
def jsOrNull : Option Json → Json
  | none => .null
  | some j => if truthy j then j else .null

/-- The text rendering of a stored value as it enters the generated hash
column (schema.sql: `COALESCE(title, '') || '|' || COALESCE(url, '')`):
SQL null coalesces to the empty string, text values render as themselves,
and the driver renders other values by their text form. -/
def sqlText : Json → String
  | .null => ""
  | .str s => s
  | .num n => toString n
  | .bool b => if b then "true" else "false"
  | .arr _ => "[array]"
  | .obj _ => "[object]"

/-- The input of the sha256 content hash of schema.sql.  The hash itself
is injective on these strings for every practical purpose, so the model
keys rows by the concatenated string directly. -/
def contentHashInput (title urlStored : Json) : String :=
  sqlText title ++ "|" ++ sqlText urlStored

/-- One row of agent_outputs (schema.sql): the stored fields and the two
timestamps; content_hash is generated from title and url, so it is
recomputed by `rowKey` instead of being stored. -/
structure DbRow where
  id : Nat
  title : Json
  description : Json
  url : Json
  category : Json
  created_at : Nat
  updated_at : Nat

/-- The generated content_hash of a row. -/
def rowKey (r : DbRow) : String := contentHashInput r.title r.url

/-- The agent_outputs table: its rows in insertion order and the serial id
counter. -/
structure DbState where
  rows : List DbRow
  nextId : Nat

/-- saveOutput (db module lines 69-92).  The title is checked first:
`if (!title) throw new Error('Title is required')` fires before any
database interaction, so the state is returned unchanged with the error.
Otherwise the INSERT ... ON CONFLICT (content_hash) DO UPDATE SET
updated_at = CURRENT_TIMESTAMP RETURNING ... statement runs: when some
stored row carries the same content hash, that row's updated_at is
refreshed and the row is returned (the unique constraint on content_hash
guarantees at most one such row, so updating every key match equals the
single-row SQL update); otherwise a new row is appended with both
timestamps set to the current time. -/
def saveOutput (item : OutputItem) (db : DbState) (now : Nat) :
    DbState × Except String DbRow :=
  match item.title with
  | none => (db, .error "Title is required")
  | some t =>
    if truthy t then
      match db.rows.find? (fun r =>
          rowKey r == contentHashInput t (jsOrNull item.url)) with
      | some r =>
          ({ db with rows := db.rows.map fun r2 =>
              if rowKey r2 == contentHashInput t (jsOrNull item.url) then
                { r2 with updated_at := now }
              else r2 },
           .ok { r with updated_at := now })
      | none =>
          ({ rows := db.rows ++
              [⟨db.nextId, t, jsOrNull item.description, jsOrNull item.url,
                jsOrNull item.category, now, now⟩],
             nextId := db.nextId + 1 },
           .ok ⟨db.nextId, t, jsOrNull item.description, jsOrNull item.url,
                jsOrNull item.category, now, now⟩)
    else (db, .error "Title is required")

/-- Claim C10: a save whose item has an absent or falsy (empty) title
returns the "Title is required" error with the database state unchanged —
the throw happens before any database interaction. -/
theorem claim_C10 (item : OutputItem) (db : DbState) (now : Nat)
    (h : truthyO item.title = false) :
    saveOutput item db now = (db, .error "Title is required") := by
  cases ht : item.title with
  | none =>
      unfold saveOutput
      simp only [ht]
  | some t =>
      rw [ht] at h
      simp only [truthyO] at h
      unfold saveOutput
      simp only [ht, h, Bool.false_eq_true, if_false]

/-- Witness for claim C10: an item with an empty title over a nonempty
database. -/
theorem claim_C10_witness :
    saveOutput ⟨some (.str ""), some (.str "d"), some (.str "u"), none⟩
        ⟨[⟨0, .str "t", .null, .null, .null, 5, 5⟩], 1⟩ 9 =
      (⟨[⟨0, .str "t", .null, .null, .null, 5, 5⟩], 1⟩,
       .error "Title is required") :=
  claim_C10 ⟨some (.str ""), some (.str "d"), some (.str "u"), none⟩
    ⟨[⟨0, .str "t", .null, .null, .null, 5, 5⟩], 1⟩ 9 rfl

theorem rowKeyUpdate (r : DbRow) (now : Nat) :
    rowKey { r with updated_at := now } = rowKey r := rfl

/-- Claim C7: a second save of an item carrying the same title and url as
a previously saved item succeeds as a duplicate update: it returns the
stored row (same id, same creation time) with its update timestamp
refreshed to the second save time, raises no error, and adds no row. -/
theorem claim_C7 (item1 item2 : OutputItem) (db db1 : DbState)
    (now1 now2 : Nat) (row1 : DbRow)
    (htitle : item2.title = item1.title) (hurl : item2.url = item1.url)
    (h1 : saveOutput item1 db now1 = (db1, .ok row1)) :
    ∃ db2 row2, saveOutput item2 db1 now2 = (db2, .ok row2) ∧
      row2.id = row1.id ∧ row2.created_at = row1.created_at ∧
      row2.updated_at = now2 ∧ db2.rows.length = db1.rows.length := by
  cases ht : item1.title with
  | none =>
      unfold saveOutput at h1
      simp only [ht] at h1
      simp at h1
  | some t =>
      unfold saveOutput at h1
      simp only [ht] at h1
      by_cases htr : truthy t = true
      case neg =>
          rw [if_neg htr] at h1
          simp at h1
      case pos =>
          rw [if_pos htr] at h1
          have hfind2 : db1.rows.find? (fun r =>
              rowKey r == contentHashInput t (jsOrNull item1.url)) = some row1 ∧
              db1.rows.length = db.rows.length ∨
              db1.rows.find? (fun r =>
              rowKey r == contentHashInput t (jsOrNull item1.url)) = some row1 ∧
              db1.rows.length = db.rows.length + 1 := by
            cases hf : db.rows.find? (fun r =>
                rowKey r == contentHashInput t (jsOrNull item1.url)) with
            | some r =>
                rw [hf] at h1
                simp only [Prod.mk.injEq, Except.ok.injEq] at h1
                obtain ⟨hdb1, hrow1⟩ := h1
                left
                constructor
                · rw [← hdb1]
                  simp only [List.find?_map]
                  have hpg : ((fun r2 => rowKey r2 ==
                      contentHashInput t (jsOrNull item1.url)) ∘
                      (fun r2 => if rowKey r2 ==
                          contentHashInput t (jsOrNull item1.url) then
                        { r2 with updated_at := now1 } else r2)) =
                      (fun r2 => rowKey r2 ==
                        contentHashInput t (jsOrNull item1.url)) := by
                    funext r2
                    by_cases hc : rowKey r2 ==
                        contentHashInput t (jsOrNull item1.url)
                    · simp only [Function.comp_apply, if_pos hc, rowKeyUpdate]
                    · simp only [Function.comp_apply, if_neg hc]
                  rw [hpg, hf]
                  have hcond := List.find?_some hf
                  simp only [Option.map_some']
                  rw [if_pos hcond, hrow1]
                · rw [← hdb1]
                  simp
            | none =>
                rw [hf] at h1
                simp only [Prod.mk.injEq, Except.ok.injEq] at h1
                obtain ⟨hdb1, hrow1⟩ := h1
                right
                constructor
                · rw [← hdb1]
                  simp only [List.find?_append, hf, Option.none_or]
                  rw [← hrow1]
                  simp [List.find?, rowKey, contentHashInput]
                · rw [← hdb1]
                  simp
          unfold saveOutput
          simp only [htitle, ht, hurl, htr, eq_self_iff_true, if_true]
          rcases hfind2 with ⟨hfind, hlen⟩ | ⟨hfind, hlen⟩ <;>
          · rw [hfind]
            refine ⟨_, _, rfl, rfl, rfl, rfl, by simp⟩

/-- Witness for claim C7: two saves with the same title and url (and
different descriptions); the first inserts, the second updates. -/
theorem claim_C7_witness :
    ∃ db2 row2,
      saveOutput ⟨some (.str "Hacker News"), some (.str "other"),
          some (.str "https://hn"), none⟩
        ⟨[⟨0, .str "Hacker News", .str "d", .str "https://hn", .null, 10, 10⟩], 1⟩
        20 = (db2, .ok row2) ∧
      row2.id = 0 ∧ row2.created_at = 10 ∧ row2.updated_at = 20 ∧
      db2.rows.length = 1 := by
  obtain ⟨db2, row2, hsave, hid, hcr, hup, hlen⟩ := claim_C7
    ⟨some (.str "Hacker News"), some (.str "d"), some (.str "https://hn"), none⟩
    ⟨some (.str "Hacker News"), some (.str "other"), some (.str "https://hn"), none⟩
    ⟨[], 0⟩
    ⟨[⟨0, .str "Hacker News", .str "d", .str "https://hn", .null, 10, 10⟩], 1⟩
    10 20
    ⟨0, .str "Hacker News", .str "d", .str "https://hn", .null, 10, 10⟩
    rfl rfl rfl
  exact ⟨db2, row2, hsave, hid, hcr, hup, hlen⟩

/-- JavaScript strict equality as used by zod enum parsing
(`values.indexOf(input)`): only primitive values can be strictly equal to
a freshly parsed input value; two distinct object or array values are
compared by reference and are never equal there. -/
def jsPrimEq : Json → Json → Bool
  | .null, .null => true
  | .bool a, .bool b => a == b
  | .num a, .num b => a == b
  | .str a, .str b => a == b
  | _, _ => false

/-- Size of a zod schema value, for termination of the parse semantics. -/
def zodSize : Zod → Nat
  | .any => 1
  | .record => 1
  | .str => 1
  | .num => 1
  | .bool => 1
  | .null => 1
  | .strEnum _ => 1
  | .union vs => 1 + ((vs.attach.map fun z => zodSize z.1).sum)
  | .array e => 1 + zodSize e
  | .object shape => 1 + ((shape.attach.map fun f => zodSize f.1.2.1).sum)
decreasing_by
  · have h := List.sizeOf_lt_of_mem z.2
    simp only [Zod.union.sizeOf_spec]
    omega
  · simp only [Zod.array.sizeOf_spec]
    omega
  · have h := List.sizeOf_lt_of_mem f.2
    have h2 : sizeOf f.1.2.1 < sizeOf f.1 := by
      obtain ⟨⟨k, base, opt, dflt⟩, hm⟩ := f
      simp only [Prod.mk.sizeOf_spec]
      omega
    simp only [Zod.object.sizeOf_spec]
    omega

theorem zodSizeMemUnion {z : Zod} {vs : List Zod} (h : z ∈ vs) :
    zodSize z < zodSize (.union vs) := by
  simp only [zodSize]
  have : zodSize z ≤ (vs.attach.map fun p => zodSize p.1).sum := by
    have hx : zodSize z = (fun p : {a // a ∈ vs} => zodSize p.1) ⟨z, h⟩ := rfl
    rw [hx]
    exact List.single_le_sum (by intro y _; positivity) _ (List.mem_map_of_mem _ (by simp))
  omega

theorem zodSizeMemShape {f : String × Zod × Bool × Option Json}
    {shape : List (String × Zod × Bool × Option Json)} (h : f ∈ shape) :
    zodSize f.2.1 < zodSize (.object shape) := by
  simp only [zodSize]
  have : zodSize f.2.1 ≤ (shape.attach.map fun p => zodSize p.1.2.1).sum := by
    have hx : zodSize f.2.1 = (fun p : {a // a ∈ shape} => zodSize p.1.2.1) ⟨f, h⟩ := rfl
    rw [hx]
    exact List.single_le_sum (by intro y _; positivity) _ (List.mem_map_of_mem _ (by simp))
  omega

/-- First success among the union alternatives: zod parses the options in
order and the first valid result is taken. -/
def listFirstSome : List (Option (Option Json)) → Option (Option Json)
  | [] => none
  | some r :: _ => some r
  | none :: rest => listFirstSome rest

/-- The parse semantics of ZodOptional as wrapped around a field by the
translator: an undefined input is accepted as undefined, anything else is
passed to the wrapped parser `pb`; a non-optional field passes its input
straight to `pb`. -/
def innerParse (pb : Option Json → Option (Option Json)) (opt : Bool)
    (o : Option Json) : Option (Option Json) :=
  if opt then
    match o with
    | none => some none
    | some v => pb (some v)
  else pb o

/-- The parse semantics of the field wrappers applied at lines 63-70 of
index.js: `.default(d)` wraps the rest, so by zod 3 ZodDefault semantics
an undefined input is replaced by the declared default and the wrapped
schema then parses that default value; without a default the input goes
straight to the optional/base layer. -/
def fieldParse (pb : Option Json → Option (Option Json)) (opt : Bool)
    (dflt : Option Json) (input : Option Json) : Option (Option Json) :=
  match dflt with
  | some d =>
      innerParse pb opt (match input with | none => some d | some v => some v)
  | none => innerParse pb opt input

/-- The zod 3 parse semantics of the signatures the translator produces:
`none` is a rejection, `some r` an acceptance whose parsed value is `r`
(`r = none` is the undefined result of an optional field).  Cases follow
zod 3: z.any accepts everything including undefined; the typed scalars
accept exactly their type; z.enum first rejects every non-string input,
then accepts a string strictly equal to one of the stored values (a
non-array stored value would make indexOf throw, which never accepts);
z.union takes the first alternative that accepts; z.array parses every
element; z.record(z.any()) accepts exactly plain objects; z.object parses
every declared field through its wrappers against the input property of
the same name, rejects when any field rejects, strips unknown keys, and
omits fields whose parsed value is undefined. -/
def zodAccepts : Zod → Option Json → Option (Option Json)
  | .any, o => some o
  | .str, o =>
      match o with
      | some (.str s) => some (some (.str s))
      | _ => none
  | .num, o =>
      match o with
      | some (.num n) => some (some (.num n))
      | _ => none
  | .bool, o =>
      match o with
      | some (.bool b) => some (some (.bool b))
      | _ => none
  | .null, o =>
      match o with
      | some .null => some (some .null)
      | _ => none
  | .record, o =>
      match o with
      | some (.obj fs) => some (some (.obj fs))
      | _ => none
  | .strEnum vals, o =>
      match o with
      | some (.str s) =>
          match vals with
          | .arr es =>
              if es.any fun e2 => jsPrimEq e2 (.str s) then some (some (.str s))
              else none
          | _ => none
      | _ => none
  | .union vs, o => listFirstSome (vs.attach.map fun z => zodAccepts z.1 o)
  | .array e, o =>
      match o with
      | some (.arr xs) =>
          (xs.mapM fun x => zodAccepts e (some x)).map fun rs =>
            some (.arr (rs.map fun r => r.getD .null))
      | _ => none
  | .object shape, o =>
      match o with
      | some (.obj fs) =>
          (shape.attach.mapM fun f =>
            (fieldParse (fun o2 => zodAccepts f.1.2.1 o2) f.1.2.2.1 f.1.2.2.2
                ((Json.obj fs).get f.1.1)).map fun r => (f.1.1, r)).map
            fun ps => some (.obj (ps.filterMap fun p => p.2.map fun v => (p.1, v)))
      | _ => none
termination_by z _ => zodSize z
decreasing_by
  · exact zodSizeMemUnion z.2
  · simp only [zodSize]
    omega
  · exact zodSizeMemShape f.2

theorem optionMapMSome {α β : Type} (l : List α) (g : α → Option β)
    (h : ∀ e ∈ l, ∃ y, g e = some y) : ∃ ys, l.mapM g = some ys := by
  induction l with
  | nil => exact ⟨[], rfl⟩
  | cons a as ih =>
      obtain ⟨y, hy⟩ := h a (by simp)
      obtain ⟨ys, hys⟩ := ih fun e he => h e (by simp [he])
      exact ⟨y :: ys, by rw [List.mapM_cons, hy, hys]; rfl⟩

/-- Counterexample to claim C9 as stated: the schema declaring a required
string property with the numeric default 5 translates to a required string
field carrying that default, and by zod 3 semantics (ZodDefault validates
the default through the inner type) an input that omits the field is
rejected — a required field with a default can still be rejected for
being absent. -/
theorem claim_C9_counterexample :
    jsonSchemaToZod (some (.obj [("type", .str "object"),
        ("properties", .obj [("a", .obj [("type", .str "string"),
            ("default", .num 5)])]),
        ("required", .arr [.str "a"])])) =
      .ok (.object [("a", .str, false, some (.num 5))]) ∧
    zodAccepts (.object [("a", .str, false, some (.num 5))])
        (some (.obj [])) = none := by
  constructor
  · rw [jsonSchemaToZodUnfold]
    simp [truthy, jsTypeofObject, unionVariants, truthyO, Json.get, typeIs,
      requiredNames, jsEntriesObj]
    simp only [List.mapM.loop]
    rw [jsonSchemaToZodUnfold]
    simp [truthy, jsTypeofObject, unionVariants, truthyO, Json.get, typeIs,
      requiredNames, jsGetDefault]
    rfl
  · simp [zodAccepts, fieldParse, innerParse, Json.get, List.mapM,
      List.mapM.loop]

/-- Claim C9 (amended): a required field carrying a declared default
accepts an input that omits the field provided the declared default itself
conforms to the field's base signature; the effective value is then the
default as validated by the base signature.  An object input is accepted
whenever every declared field's parse succeeds, so the omission no longer
rejects the input. -/
theorem claim_C9 :
    (∀ (base : Zod) (d : Json) (r : Option Json) (opt : Bool),
      zodAccepts base (some d) = some r →
      fieldParse (fun o => zodAccepts base o) opt (some d) none = some r) ∧
    (∀ (shape : List (String × Zod × Bool × Option Json))
        (input : List (String × Json)),
      (∀ f ∈ shape, ∃ r, fieldParse (fun o => zodAccepts f.2.1 o) f.2.2.1
          f.2.2.2 ((Json.obj input).get f.1) = some r) →
      ∃ out, zodAccepts (.object shape) (some (.obj input)) = some out) := by
  constructor
  · intro base d r opt h
    unfold fieldParse innerParse
    cases opt <;> simp [h]
  · intro shape input hfields
    simp only [zodAccepts]
    obtain ⟨ys, hys⟩ := optionMapMSome shape.attach
      (fun f => (fieldParse (fun o2 => zodAccepts f.1.2.1 o2) f.1.2.2.1
          f.1.2.2.2 ((Json.obj input).get f.1.1)).map fun r => (f.1.1, r))
      (by
        intro e _
        obtain ⟨r, hr⟩ := hfields e.1 e.2
        exact ⟨(e.1.1, r), by simp only [hr]; rfl⟩)
    rw [hys]
    exact ⟨_, rfl⟩

/-- Witness for claim C9: a required string field with the conforming
default "x" accepts an input object that omits it. -/
theorem claim_C9_witness :
    fieldParse (fun o => zodAccepts Zod.str o) false (some (.str "x")) none =
      some (some (.str "x")) ∧
    ∃ out, zodAccepts (.object [("a", .str, false, some (.str "x"))])
        (some (.obj [])) = some out :=
  ⟨claim_C9.1 Zod.str (.str "x") (some (.str "x")) false (by simp [zodAccepts]),
   claim_C9.2 [("a", .str, false, some (.str "x"))] []
     (by
       intro f hf
       simp only [List.mem_singleton] at hf
       subst hf
       exact ⟨some (.str "x"),
         by simp [fieldParse, innerParse, zodAccepts, Json.get]⟩)⟩
